import Mathlib

/-!
# Verification of the cntnr container engine core

A shallow embedding of the build engine, Dockerfile interpreter, runtime-spec
builder and lock file of the `cntnr` repository, together with proofs about the
properties its specification states.

Go strings are embedded as `List Char` (`GoStr`); Go maps that the code only
reads and updates pointwise are embedded as association lists; machine
integers are embedded as `Nat` with explicit `% 2^32` where the code converts
to `uint32`.
-/

/-- Embedding of a Go string as a list of characters. -/
abbrev GoStr := List Char

/-- Convert a Lean string literal to the Go string embedding. -/
def gs (s : String) : GoStr := s.toList

/-- `strings.Join(l, " ")` / `strings.Split(s, sep)` helpers: intercalate a
single-character separator between the elements of a list of strings. -/
def sepJoin (sep : Char) : List GoStr → GoStr
  | [] => []
  | [x] => x
  | x :: y :: t => x ++ sep :: sepJoin sep (y :: t)

/-- `strings.Split(s, sep)` for a single-character separator: split at every
occurrence of `sep`.  Like Go, the result is never empty: splitting the empty
string yields `[[]]`. -/
def sepSplit (sep : Char) : GoStr → List GoStr
  | [] => [[]]
  | c :: t =>
    if c = sep then [] :: sepSplit sep t
    else
      match sepSplit sep t with
      | [] => [[c]]
      | x :: xs => (c :: x) :: xs

/-- `strings.TrimLeft(s, " ")`: drop leading spaces. -/
def trimLeftSpaces (s : GoStr) : GoStr := s.dropWhile (fun c => c = ' ')

/-- `strings.Trim(s, " ")`: drop leading and trailing spaces (the Go code
passes the cutset `" "`, so only the space character is trimmed). -/
def trimSpaces (s : GoStr) : GoStr :=
  (trimLeftSpaces (trimLeftSpaces s).reverse).reverse

/-- The character of a decimal digit `n < 10`. -/
def digitChar (n : Nat) : Char := Char.ofNat (48 + n)

/-- Decimal digits with explicit recursion depth (`fuel` bounds the number of
digits; `natDigits` always supplies enough). -/
def natDigitsAux : Nat → Nat → GoStr
  | 0, _ => []
  | fuel + 1, n =>
    if n < 10 then [digitChar n]
    else natDigitsAux fuel (n / 10) ++ [digitChar (n % 10)]

/-- Decimal representation of a natural number (`strconv.Itoa` for
non-negative input). -/
def natDigits (n : Nat) : GoStr := natDigitsAux (n + 1) n

-- Basic lemmas about the string helpers.

theorem sepSplit_ne_nil (sep : Char) (s : GoStr) : sepSplit sep s ≠ [] := by
  induction s with
  | nil => simp [sepSplit]
  | cons c t ih =>
    simp only [sepSplit]
    by_cases h : c = sep
    · simp [h]
    · simp only [if_neg h]
      cases hm : sepSplit sep t with
      | nil => simp
      | cons x xs => simp

theorem sepSplit_no_sep (sep : Char) (s : GoStr) :
    ∀ x ∈ sepSplit sep s, sep ∉ x := by
  induction s with
  | nil => simp [sepSplit]
  | cons c t ih =>
    intro x hx
    simp only [sepSplit] at hx
    by_cases h : c = sep
    · rw [if_pos h] at hx
      rcases List.mem_cons.mp hx with hx | hx
      · simp [hx]
      · exact ih x hx
    · rw [if_neg h] at hx
      cases hm : sepSplit sep t with
      | nil => exact absurd hm (sepSplit_ne_nil sep t)
      | cons y ys =>
        rw [hm] at hx
        rcases List.mem_cons.mp hx with hx | hx
        · subst hx
          intro hmem
          rcases List.mem_cons.mp hmem with hc | hc
          · exact h hc.symm
          · exact ih y (hm ▸ List.mem_cons_self y ys) hc
        · exact ih x (hm ▸ List.mem_cons_of_mem y hx)

theorem sepSplit_of_no_sep (sep : Char) (s : GoStr) (h : sep ∉ s) :
    sepSplit sep s = [s] := by
  induction s with
  | nil => simp [sepSplit]
  | cons c t ih =>
    simp only [sepSplit]
    have hc : ¬ c = sep := fun hc => h (by simp [hc])
    have ht : sep ∉ t := fun hm => h (List.mem_cons_of_mem c hm)
    simp [if_neg hc, ih ht]

theorem sepSplit_append (sep : Char) (x t : GoStr) (hx : sep ∉ x) :
    sepSplit sep (x ++ sep :: t) = x :: sepSplit sep t := by
  induction x with
  | nil => simp [sepSplit]
  | cons c cs ih =>
    have hc : ¬ c = sep := fun hc => hx (by simp [hc])
    have hcs : sep ∉ cs := fun hm => hx (List.mem_cons_of_mem c hm)
    have h2 := ih hcs
    simp only [List.cons_append, sepSplit, if_neg hc, List.append_eq, h2]

theorem sepSplit_sepJoin (sep : Char) (l : List GoStr) (hne : l ≠ [])
    (hfree : ∀ x ∈ l, sep ∉ x) :
    sepSplit sep (sepJoin sep l) = l := by
  induction l with
  | nil => exact absurd rfl hne
  | cons x xs ih =>
    cases xs with
    | nil =>
      simp only [sepJoin]
      exact sepSplit_of_no_sep sep x (hfree x (List.mem_cons_self x []))
    | cons y ys =>
      simp only [sepJoin]
      rw [sepSplit_append sep x _ (hfree x (List.mem_cons_self x (y :: ys)))]
      rw [ih (by simp) (fun z hz => hfree z (List.mem_cons_of_mem x hz))]

theorem sepJoin_eq_nil_iff (sep : Char) (l : List GoStr) :
    sepJoin sep l = [] ↔ l = [] ∨ l = [[]] := by
  cases l with
  | nil => simp [sepJoin]
  | cons x xs =>
    cases xs with
    | nil => simp [sepJoin]
    | cons y ys =>
      simp only [sepJoin]
      constructor
      · intro h
        exact absurd h (by simp)
      · intro h
        rcases h with h | h <;> simp_all

theorem trimLeftSpaces_idem (s : GoStr) :
    trimLeftSpaces (trimLeftSpaces s) = trimLeftSpaces s := by
  induction s with
  | nil => rfl
  | cons c t ih =>
    by_cases h : c = ' '
    · simp [trimLeftSpaces, List.dropWhile, h] at ih ⊢
      exact ih
    · simp [trimLeftSpaces, List.dropWhile, h]

theorem trimLeftSpaces_append_single (c : Char) (hc : ¬ c = ' ') (l : GoStr) :
    ∃ m, trimLeftSpaces (l ++ [c]) = m ++ [c] := by
  induction l with
  | nil => exact ⟨[], by simp [trimLeftSpaces, List.dropWhile, hc]⟩
  | cons a t ih =>
    by_cases ha : a = ' '
    · simpa [trimLeftSpaces, List.dropWhile, ha] using ih
    · exact ⟨a :: t, by simp [trimLeftSpaces, List.dropWhile, ha]⟩

theorem trimLeftSpaces_head_ne (s : GoStr) (c : Char) (t : GoStr)
    (h : trimLeftSpaces s = c :: t) : ¬ c = ' ' := by
  induction s with
  | nil => simp [trimLeftSpaces] at h
  | cons a as ih =>
    by_cases ha : a = ' '
    · exact ih (by simpa [trimLeftSpaces, List.dropWhile, ha] using h)
    · simp [trimLeftSpaces, List.dropWhile, ha] at h
      exact h.1 ▸ ha

theorem trimLeftSpaces_cons_ne (c : Char) (hc : ¬ c = ' ') (l : GoStr) :
    trimLeftSpaces (c :: l) = c :: l := by
  simp [trimLeftSpaces, List.dropWhile, hc]

theorem trimSpaces_idem (s : GoStr) : trimSpaces (trimSpaces s) = trimSpaces s := by
  show (trimLeftSpaces (trimLeftSpaces (trimSpaces s)).reverse).reverse = trimSpaces s
  cases hu : trimLeftSpaces s with
  | nil =>
    have hnil : trimSpaces s = [] := by
      unfold trimSpaces
      rw [hu]
      rfl
    rw [hnil]
    rfl
  | cons c t =>
    have hc : ¬ c = ' ' := trimLeftSpaces_head_ne s c t hu
    obtain ⟨m, hm⟩ := trimLeftSpaces_append_single c hc t.reverse
    have h1 : trimLeftSpaces ((c :: t).reverse) = m ++ [c] := by
      rw [List.reverse_cons]
      exact hm
    have h3 : trimLeftSpaces (m ++ [c]) = m ++ [c] := by
      have h4 := congrArg trimLeftSpaces h1
      rw [trimLeftSpaces_idem] at h4
      exact h4.symm.trans h1
    have hA : trimSpaces s = c :: m.reverse := by
      unfold trimSpaces
      rw [hu, h1]
      simp
    rw [hA, trimLeftSpaces_cons_ne c hc, List.reverse_cons, List.reverse_reverse, h3]
    simp

theorem trimSpaces_no_mem (s : GoStr) (c : Char) (h : c ∉ s) :
    c ∉ trimSpaces s := by
  intro hmem
  apply h
  unfold trimSpaces at hmem
  rw [List.mem_reverse] at hmem
  have h1 := List.dropWhile_sublist (l := (trimLeftSpaces s).reverse)
    (p := fun x => x = ' ')
  have h2 : c ∈ (trimLeftSpaces s).reverse := h1.mem hmem
  rw [List.mem_reverse] at h2
  have h3 := List.dropWhile_sublist (l := s) (p := fun x => x = ' ')
  exact h3.mem h2

/-! ## Lexicographic string order (`sort.Strings`)

Go's `sort.Strings` sorts byte-lexicographically.  On the embedding a string
is a list of characters, ordered lexicographically by code point, which
agrees with byte order for UTF-8 encoded strings. -/

/-- Boolean lexicographic less-or-equal on embedded strings. -/
def strLeB : GoStr → GoStr → Bool
  | [], _ => true
  | _ :: _, [] => false
  | a :: as, b :: bs =>
    if a = b then strLeB as bs else decide (a < b)

/-- The ordering relation used by the embedded `sort.Strings`. -/
def strLe (a b : GoStr) : Prop := strLeB a b = true

instance : DecidableRel strLe := fun a b => by
  unfold strLe
  infer_instance

theorem strLeB_total (a b : GoStr) : strLeB a b = true ∨ strLeB b a = true := by
  induction a generalizing b with
  | nil => left; rfl
  | cons x as ih =>
    cases b with
    | nil => right; rfl
    | cons y bs =>
      by_cases hxy : x = y
      · subst hxy
        rcases ih bs with h | h
        · left; simpa [strLeB] using h
        · right; simpa [strLeB] using h
      · have hyx : ¬ y = x := fun e => hxy (Eq.symm e)
        rcases lt_trichotomy x y with h | h | h
        · left; simp [strLeB, hxy, h]
        · exact absurd h hxy
        · right
          simp [strLeB, hyx, h]

theorem strLeB_antisymm (a b : GoStr) (h1 : strLeB a b = true)
    (h2 : strLeB b a = true) : a = b := by
  induction a generalizing b with
  | nil =>
    cases b with
    | nil => rfl
    | cons y bs => simp [strLeB] at h2
  | cons x as ih =>
    cases b with
    | nil => simp [strLeB] at h1
    | cons y bs =>
      by_cases hxy : x = y
      · subst hxy
        simp only [strLeB, if_pos rfl] at h1 h2
        rw [ih bs h1 h2]
      · have hyx : ¬ y = x := fun e => hxy (Eq.symm e)
        simp only [strLeB, if_neg hxy, decide_eq_true_eq] at h1
        simp only [strLeB, if_neg hyx, decide_eq_true_eq] at h2
        exact absurd (lt_trans h1 h2) (lt_irrefl x)

theorem strLeB_trans (a b c : GoStr) (h1 : strLeB a b = true)
    (h2 : strLeB b c = true) : strLeB a c = true := by
  induction a generalizing b c with
  | nil => rfl
  | cons x as ih =>
    cases b with
    | nil => simp [strLeB] at h1
    | cons y bs =>
      cases c with
      | nil => simp [strLeB] at h2
      | cons z cs =>
        by_cases hxy : x = y
        · subst hxy
          simp only [strLeB, if_pos rfl] at h1
          by_cases hyz : x = z
          · subst hyz
            simp only [strLeB, if_pos rfl] at h2 ⊢
            exact ih bs cs h1 h2
          · simp only [strLeB, if_neg hyz] at h2 ⊢
            exact h2
        · simp only [strLeB, if_neg hxy, decide_eq_true_eq] at h1
          by_cases hyz : y = z
          · subst hyz
            simp [strLeB, hxy, h1]
          · simp only [strLeB, if_neg hyz, decide_eq_true_eq] at h2
            have hxz : x < z := lt_trans h1 h2
            simp [strLeB, ne_of_lt hxz, hxz]

instance : IsTotal GoStr strLe := ⟨fun a b => strLeB_total a b⟩

instance : IsTrans GoStr strLe := ⟨fun a b c => strLeB_trans a b c⟩

instance : IsAntisymm GoStr strLe := ⟨fun a b => strLeB_antisymm a b⟩

/-! ## SpecBuilder.AddExposedPorts

Embedding of `SpecBuilder.AddExposedPorts` (runtimespecbuilder, lines
131-157): the current value of the `org.opencontainers.image.exposedPorts`
annotation is split on `","`, each entry is trimmed (cutset `" "`), the new
ports are trimmed and added to the set, and the resulting set is sorted and
re-joined with `","`.  The Go code keeps the set in a map and sorts its keys,
so the embedding represents the set by deduplicating the element list before
sorting; Go reads an absent annotation as the empty string. -/

/-- The element list of the merged exposed-ports set (old annotation entries
followed by the new ports, each trimmed). -/
def exposedElems (ann : GoStr) (ports : List GoStr) : List GoStr :=
  (if ann = [] then [] else (sepSplit ',' ann).map trimSpaces) ++
    ports.map trimSpaces

/-- `SpecBuilder.AddExposedPorts`: value of the exposedPorts annotation after
the merge.  When the merged set is empty the Go code performs no
`AddAnnotation` call, so the annotation keeps its previous value. -/
def addExposedPorts (ann : GoStr) (ports : List GoStr) : GoStr :=
  let elems := (exposedElems ann ports).dedup
  if elems = [] then ann
  else sepJoin ',' (List.insertionSort strLe elems)

theorem exposedElems_trim_fixed (ann : GoStr) (ports : List GoStr) :
    ∀ x ∈ exposedElems ann ports, trimSpaces x = x := by
  intro x hx
  unfold exposedElems at hx
  rcases List.mem_append.mp hx with hx | hx
  · by_cases hann : ann = []
    · rw [if_pos hann] at hx
      simp at hx
    · rw [if_neg hann] at hx
      obtain ⟨y, _, hy⟩ := List.mem_map.mp hx
      rw [← hy]
      exact trimSpaces_idem y
  · obtain ⟨y, _, hy⟩ := List.mem_map.mp hx
    rw [← hy]
    exact trimSpaces_idem y

theorem exposedElems_comma_free (ann : GoStr) (ports : List GoStr)
    (hp : ∀ p ∈ ports, ',' ∉ trimSpaces p) :
    ∀ x ∈ exposedElems ann ports, ',' ∉ x := by
  intro x hx
  unfold exposedElems at hx
  rcases List.mem_append.mp hx with hx | hx
  · by_cases hann : ann = []
    · rw [if_pos hann] at hx
      simp at hx
    · rw [if_neg hann] at hx
      obtain ⟨y, hy, hxy⟩ := List.mem_map.mp hx
      rw [← hxy]
      exact trimSpaces_no_mem y ',' (sepSplit_no_sep ',' ann y hy)
  · obtain ⟨y, hy, hxy⟩ := List.mem_map.mp hx
    rw [← hxy]
    exact hp y hy

/-- Deduplicated lists with the same members sort to the same list. -/
theorem insertionSort_eq_of_same_mem (l1 l2 : List GoStr)
    (h1 : l1.Nodup) (h2 : l2.Nodup) (hm : ∀ x, x ∈ l1 ↔ x ∈ l2) :
    List.insertionSort strLe l1 = List.insertionSort strLe l2 := by
  have hperm : l1.Perm l2 := (List.perm_ext_iff_of_nodup h1 h2).mpr hm
  exact List.eq_of_perm_of_sorted
    ((List.perm_insertionSort strLe l1).trans
      (hperm.trans (List.perm_insertionSort strLe l2).symm))
    (List.sorted_insertionSort strLe l1)
    (List.sorted_insertionSort strLe l2)

theorem map_fixed_eq (f : GoStr → GoStr) (l : List GoStr)
    (h : ∀ x ∈ l, f x = x) : l.map f = l := by
  induction l with
  | nil => rfl
  | cons x t ih =>
    rw [List.map_cons, h x (List.mem_cons_self x t),
      ih (fun y hy => h y (List.mem_cons_of_mem x hy))]

theorem nodup_all_eq (l : List GoStr) (a : GoStr) (h : ∀ x ∈ l, x = a)
    (hn : l.Nodup) : l = [] ∨ l = [a] := by
  cases l with
  | nil => left; rfl
  | cons x t =>
    cases t with
    | nil => right; rw [h x (List.mem_cons_self x [])]
    | cons y u =>
      have hx : x = a := h x (by simp)
      have hy : y = a := h y (by simp)
      rw [List.nodup_cons] at hn
      exact absurd (by simp [hx, hy]) hn.1

/-- **C9** counterexample: the claim asserts unrestricted idempotence and
whitespace trimming.  (1) A port containing a comma breaks idempotence: after
merging the single port `"a,b"` the annotation is `a,b`; merging the same
list again re-splits the stored value at the comma and yields `a,a,b,b`.
(2) The code trims only the space character (`strings.Trim(s, " ")`), so a
port with a leading tab is stored untrimmed. -/
theorem addExposedPorts_claim_counterexample :
    addExposedPorts (addExposedPorts (gs "") [gs "a,b"]) [gs "a,b"] ≠
      addExposedPorts (gs "") [gs "a,b"]
    ∧ addExposedPorts (addExposedPorts (gs "") [gs "a,b"]) [gs "a,b"] =
        gs "a,a,b,b"
    ∧ addExposedPorts (gs "") [gs "\ta"] = gs "\ta" := by
  refine ⟨by decide, by decide, by decide⟩

/-- **C9** (amended): `SpecBuilder.AddExposedPorts` merges the given ports
into the existing `org.opencontainers.image.exposedPorts` annotation as a
space-trimmed, deduplicated, lexicographically sorted comma-separated list:
the merged entries are exactly the trimmed previous entries together with the
trimmed new ports, sorted and without duplicates.  The operation is
order-insensitive (permuted port lists yield the same annotation), and it is
idempotent provided no port still contains a comma after trimming. -/
theorem addExposedPorts_canonical (ann : GoStr) (ports1 ports2 ports : List GoStr)
    (hperm : ports1.Perm ports2)
    (hcomma : ∀ p ∈ ports, ',' ∉ trimSpaces p) :
    addExposedPorts ann ports1 = addExposedPorts ann ports2
    ∧ addExposedPorts (addExposedPorts ann ports) ports = addExposedPorts ann ports
    ∧ ((exposedElems ann ports1).dedup ≠ [] →
        addExposedPorts ann ports1 =
          sepJoin ',' (List.insertionSort strLe (exposedElems ann ports1).dedup)
        ∧ List.Sorted strLe (List.insertionSort strLe (exposedElems ann ports1).dedup)
        ∧ (List.insertionSort strLe (exposedElems ann ports1).dedup).Nodup
        ∧ ∀ x, x ∈ List.insertionSort strLe (exposedElems ann ports1).dedup ↔
            x ∈ exposedElems ann ports1) := by
  refine ⟨?_, ?_, ?_⟩
  · -- order insensitivity
    have hmap : (ports1.map trimSpaces).Perm (ports2.map trimSpaces) :=
      hperm.map trimSpaces
    have helems : (exposedElems ann ports1).Perm (exposedElems ann ports2) :=
      List.Perm.append_left _ hmap
    have hd : (exposedElems ann ports1).dedup.Perm (exposedElems ann ports2).dedup :=
      (List.perm_ext_iff_of_nodup (List.nodup_dedup _) (List.nodup_dedup _)).mpr
        (fun x => by
          rw [List.mem_dedup, List.mem_dedup]
          exact helems.mem_iff)
    by_cases h1 : (exposedElems ann ports1).dedup = []
    · have h2 : (exposedElems ann ports2).dedup = [] :=
        ((h1 ▸ hd).symm).eq_nil
      simp [addExposedPorts, h1, h2]
    · have h2 : (exposedElems ann ports2).dedup ≠ [] := by
        intro h2
        exact h1 ((h2 ▸ hd).eq_nil)
      have heq : List.insertionSort strLe (exposedElems ann ports1).dedup =
          List.insertionSort strLe (exposedElems ann ports2).dedup :=
        insertionSort_eq_of_same_mem _ _ (List.nodup_dedup _) (List.nodup_dedup _)
          (fun x => by
            rw [List.mem_dedup, List.mem_dedup]
            exact helems.mem_iff)
      simp only [addExposedPorts, if_neg h1, if_neg h2]
      rw [heq]
  · -- idempotence, given comma-free trimmed ports
    by_cases hd : (exposedElems ann ports).dedup = []
    · have hr : addExposedPorts ann ports = ann := by
        simp [addExposedPorts, hd]
      rw [hr]
      exact hr
    · set L := List.insertionSort strLe (exposedElems ann ports).dedup with hLdef
      have hr : addExposedPorts ann ports = sepJoin ',' L := by
        simp only [addExposedPorts]
        rw [if_neg hd]
      have hLperm : L.Perm (exposedElems ann ports).dedup :=
        List.perm_insertionSort strLe _
      have hLnodup : L.Nodup := hLperm.nodup_iff.mpr (List.nodup_dedup _)
      have hLne : L ≠ [] := fun h => hd (h ▸ hLperm).symm.eq_nil
      have hLmem : ∀ x, x ∈ L ↔ x ∈ exposedElems ann ports := fun x =>
        hLperm.mem_iff.trans (List.mem_dedup)
      have hLtrim : ∀ x ∈ L, trimSpaces x = x := fun x hx =>
        exposedElems_trim_fixed ann ports x ((hLmem x).mp hx)
      have hLfree : ∀ x ∈ L, ',' ∉ x := fun x hx =>
        exposedElems_comma_free ann ports hcomma x ((hLmem x).mp hx)
      rw [hr]
      by_cases hrnil : sepJoin ',' L = []
      · have hL1 : L = [[]] := by
          rcases (sepJoin_eq_nil_iff ',' L).mp hrnil with h | h
          · exact absurd h hLne
          · exact h
        rw [hrnil]
        have hall : ∀ x ∈ exposedElems [] ports, x = [] := by
          intro x hx
          have hxE : x ∈ exposedElems ann ports := by
            unfold exposedElems at hx ⊢
            rw [if_pos rfl] at hx
            exact List.mem_append_right _ (by simpa using hx)
          have := (hLmem x).mpr hxE
          rw [hL1] at this
          simpa using this
        rcases nodup_all_eq _ [] (fun x hx => hall x (List.mem_dedup.mp hx))
          (List.nodup_dedup _) with h0 | h0
        · simp [addExposedPorts, h0]
        · simp [addExposedPorts, h0, List.insertionSort, List.orderedInsert, sepJoin]
      · have hsplit : sepSplit ',' (sepJoin ',' L) = L :=
          sepSplit_sepJoin ',' L hLne hLfree
        have hE2 : exposedElems (sepJoin ',' L) ports = L ++ ports.map trimSpaces := by
          unfold exposedElems
          rw [if_neg hrnil, hsplit, map_fixed_eq trimSpaces L hLtrim]
        have hE2mem : ∀ x, x ∈ exposedElems (sepJoin ',' L) ports ↔
            x ∈ exposedElems ann ports := by
          intro x
          rw [hE2]
          constructor
          · intro hx
            rcases List.mem_append.mp hx with hx | hx
            · exact (hLmem x).mp hx
            · exact List.mem_append_right _ hx
          · intro hx
            exact List.mem_append.mpr (Or.inl ((hLmem x).mpr hx))
        have hd2 : (exposedElems (sepJoin ',' L) ports).dedup ≠ [] := by
          intro h0
          obtain ⟨x, hx⟩ := List.exists_mem_of_ne_nil L hLne
          have hxd : x ∈ (exposedElems (sepJoin ',' L) ports).dedup :=
            List.mem_dedup.mpr ((hE2mem x).mpr ((hLmem x).mp hx))
          rw [h0] at hxd
          simp at hxd
        have heq : List.insertionSort strLe (exposedElems (sepJoin ',' L) ports).dedup =
            List.insertionSort strLe (exposedElems ann ports).dedup :=
          insertionSort_eq_of_same_mem _ _ (List.nodup_dedup _) (List.nodup_dedup _)
            (fun x => by
              rw [List.mem_dedup, List.mem_dedup]
              exact hE2mem x)
        simp only [addExposedPorts, if_neg hd2]
        rw [heq]
  · -- canonical description of the merged value
    intro hne
    refine ⟨by simp only [addExposedPorts]; rw [if_neg hne],
      List.sorted_insertionSort strLe _,
      (List.perm_insertionSort strLe _).nodup_iff.mpr (List.nodup_dedup _),
      fun x => (List.perm_insertionSort strLe _).mem_iff.trans List.mem_dedup⟩

/-- Witness for `addExposedPorts_canonical` at concrete inputs. -/
theorem addExposedPorts_canonical_witness :
    addExposedPorts (gs "80/tcp") [gs "8080/tcp", gs " 443/tcp"] =
      addExposedPorts (gs "80/tcp") [gs " 443/tcp", gs "8080/tcp"]
    ∧ addExposedPorts (addExposedPorts (gs "80/tcp") [gs " 443/tcp", gs "8080/tcp"])
        [gs " 443/tcp", gs "8080/tcp"] =
      addExposedPorts (gs "80/tcp") [gs " 443/tcp", gs "8080/tcp"] := by
  have h := addExposedPorts_canonical (gs "80/tcp")
    [gs "8080/tcp", gs " 443/tcp"] [gs " 443/tcp", gs "8080/tcp"]
    [gs " 443/tcp", gs "8080/tcp"] (by decide) (by decide)
  exact ⟨h.1, h.2.1⟩

/-! ## DockerfileBuilder: ARG handling and RUN/ENTRYPOINT/CMD forms

Embedding of `DockerfileBuilder.arg` (dockerfile.go 253-278),
`DockerfileBuilder.useShell` (301-307), `readInstructionNode` (442-453),
`DockerfileBuilder.readInstructionNodeCmd` (455-462) and the exec-form test
(502-509).  Maps are embedded as association lists, the set `envMap` as a
list of keys. -/

/-- Go map read (`m[k]` with presence flag). -/
def assocGet (m : List (GoStr × GoStr)) (k : GoStr) : Option GoStr :=
  match m with
  | [] => none
  | (k9, v) :: t => if k9 = k then some v else assocGet t k

/-- Go map write (`m[k] = v`). -/
def assocSet (m : List (GoStr × GoStr)) (k v : GoStr) : List (GoStr × GoStr) :=
  match m with
  | [] => [(k, v)]
  | (k9, v9) :: t => if k9 = k then (k, v) :: t else (k9, v9) :: assocSet t k v

/-- Per-stage Dockerfile variable state: keys declared via ENV, the extra
RUN-only env map, and the substitution scope. -/
structure DfState where
  envMap : List GoStr
  runEnvMap : List (GoStr × GoStr)
  varScope : List (GoStr × GoStr)
deriving DecidableEq

inductive DfWarning
  | undefinedBuildArg (k : GoStr)
  | argShadowedByEnv (k : GoStr)
deriving DecidableEq

structure ArgOut where
  st : DfState
  warnings : List DfWarning
deriving DecidableEq

/-- The literal default of `ARG k[=default]` as read by the Go code: the
instruction's trailing argument nodes joined with spaces, or empty. -/
def argDefaultValue (l : List GoStr) : GoStr :=
  if 2 ≤ l.length then sepJoin ' ' (l.drop 1) else []

/-- The effective ARG value: the build-time override when one was provided,
else the literal default (which is empty when absent). -/
def argEffectiveValue (buildArgs : List (GoStr × GoStr)) (l : List GoStr) : GoStr :=
  match assocGet buildArgs (l.headD []) with
  | some barg => barg
  | none => argDefaultValue l

/-- `DockerfileBuilder.arg`: `l` is the instruction's argument node list
(`[k]` or `[k, default…]`, never empty). -/
def argStep (st : DfState) (buildArgs : List (GoStr × GoStr)) (l : List GoStr) :
    ArgOut :=
  let k := l.headD []
  let v0 := argDefaultValue l
  let vw : GoStr × List DfWarning :=
    match assocGet buildArgs k with
    | some barg => (barg, [])
    | none => (v0, if v0 = [] then [DfWarning.undefinedBuildArg k] else [])
  if k ∈ st.envMap then
    { st := st, warnings := vw.2 ++ [DfWarning.argShadowedByEnv k] }
  else if vw.1 ≠ [] then
    { st := { st with runEnvMap := assocSet st.runEnvMap k vw.1,
                      varScope := assocSet st.varScope k vw.1 },
      warnings := vw.2 }
  else { st := st, warnings := vw.2 }

inductive DfErr
  | incompleteInstruction
deriving DecidableEq

/-- `readInstructionNode`: collect the instruction's argument nodes, failing
on an empty list ("incomplete instruction"). -/
def readInstructionNodeVals (r : List GoStr) : Except DfErr (List GoStr) :=
  if r = [] then .error .incompleteInstruction else .ok r

/-- The initial shell vector set by `LoadDockerfile`. -/
def defaultShell : List GoStr := [gs "/bin/sh", gs "-c"]

/-- `DockerfileBuilder.useShell`: the SHELL instruction replaces the current
shell vector by its argument nodes. -/
def useShellStep (r : List GoStr) : Except DfErr (List GoStr) :=
  match readInstructionNodeVals r with
  | .error e => .error e
  | .ok v => .ok v

/-- ASCII whitespace as recognised by `strings.TrimSpace` / `encoding/json`. -/
def isWSch (c : Char) : Bool :=
  (c == ' ') || (c == '\t') || (c == '\n') || (c == '\r')

def skipWS (s : GoStr) : GoStr := s.dropWhile isWSch

/-- `strings.TrimSpace` (restricted to ASCII whitespace, which is all the
surrounding code can produce). -/
def trimWS (s : GoStr) : GoStr := (skipWS (skipWS s).reverse).reverse

/-- Consume a JSON string body after the opening quote, returning the
remainder after the closing quote.  Escape sequences are consumed leniently
(any escaped character is accepted where `encoding/json` restricts them);
the instruction lines relevant here contain no escapes. -/
def chompString : GoStr → Option GoStr
  | [] => none
  | '"' :: t => some t
  | '\\' :: [] => none
  | '\\' :: _ :: t => chompString t
  | _ :: t => chompString t

/-- Consume the members of a JSON string array after the opening bracket.
`allowClose` is false directly after a comma, where `]` is illegal. -/
def chompArray : Nat → Bool → GoStr → Option GoStr
  | 0, _, _ => none
  | fuel + 1, allowClose, s =>
    match skipWS s with
    | ']' :: t => if allowClose then some t else none
    | '"' :: t =>
      match chompString t with
      | none => none
      | some rest =>
        match skipWS rest with
        | ',' :: t2 => chompArray fuel false t2
        | ']' :: t2 => some t2
        | _ => none
    | _ => none

/-- `json.Unmarshal(data, &[]string{}) == nil`: the data is a JSON array of
strings (or JSON `null`, which unmarshals to a nil slice) surrounded by
optional whitespace. -/
def jsonStringArrayOk (s : GoStr) : Bool :=
  match skipWS s with
  | '[' :: t =>
    match chompArray (t.length + 1) true t with
    | some rest => (skipWS rest).isEmpty
    | none => false
  | 'n' :: 'u' :: 'l' :: 'l' :: rest => (skipWS rest).isEmpty
  | _ => false

/-- `line[strings.Index(line, " "):]`: the suffix of the line from its first
space character (inclusive).  `none` when the line has no space, where the Go
code would panic on the `-1` slice index; instruction lines reaching the
exec-form test always contain a space. -/
def fromFirstSpace : GoStr → Option GoStr
  | [] => none
  | c :: t => if c = ' ' then some (c :: t) else fromFirstSpace t

/-- The exec-form test of dockerfile.go 504-509 (the source function that
decides whether an instruction uses JSON array syntax): the trimmed line is
cut at its first space and the remainder must `json.Unmarshal` into a string
slice.  The package-level regex declared beside it is dead code and not
consulted. -/
def isJsonForm (original : GoStr) : Bool :=
  match fromFirstSpace (trimWS original) with
  | none => false
  | some args => jsonStringArrayOk (trimWS args)

/-- `DockerfileBuilder.readInstructionNodeCmd`: RUN/ENTRYPOINT/CMD argument
vector; exec form is taken verbatim, otherwise the current shell vector is
prefixed to the space-joined arguments. -/
def readInstructionNodeCmdF (shell : List GoStr) (original : GoStr)
    (r : List GoStr) : Except DfErr (List GoStr) :=
  match readInstructionNodeVals r with
  | .error e => .error e
  | .ok v => .ok (if isJsonForm original then v else shell ++ [sepJoin ' ' v])

def isAlphaCh (c : Char) : Bool :=
  (decide ('A' ≤ c) && decide (c ≤ 'Z')) || (decide ('a' ≤ c) && decide (c ≤ 'z'))

/-- Modelled from the spec: exec-form detection "by regex-matching a
JSON-array suffix", i.e. the source's package-level pattern
`^[A-Za-z]+\s*\[[^\]]+\]\s*$` (declared in dockerfile.go line 502 but never
applied).  A line matches when it starts with letters, then optional
whitespace, then a bracketed non-empty span free of `]`, then only
whitespace. -/
def specRegexJsonForm (line : GoStr) : Bool :=
  let a := line.takeWhile isAlphaCh
  let rest := line.dropWhile isAlphaCh
  if a.isEmpty then false
  else
    match skipWS rest with
    | '[' :: t =>
      let inner := t.takeWhile (fun c => !(c == ']'))
      let rest2 := t.dropWhile (fun c => !(c == ']'))
      if inner.isEmpty then false
      else
        match rest2 with
        | ']' :: t2 => (skipWS t2).isEmpty
        | _ => false
    | _ => false

/-- **C5** counterexample: for `ARG K` with no default and no build-time
override, the effective value is empty and `K` is not declared via ENV, yet
the code stores nothing: `runEnvMap` and `varScope` stay empty, while the
claim says the value is stored in both. -/
theorem arg_empty_value_counterexample :
    argEffectiveValue [] [gs "K"] = []
    ∧ gs "K" ∉ (⟨[], [], []⟩ : DfState).envMap
    ∧ (argStep ⟨[], [], []⟩ [] [gs "K"]).st.runEnvMap = []
    ∧ (argStep ⟨[], [], []⟩ [] [gs "K"]).st.varScope = []
    ∧ DfWarning.undefinedBuildArg (gs "K") ∈
        (argStep ⟨[], [], []⟩ [] [gs "K"]).warnings := by
  refine ⟨by decide, by decide, by decide, by decide, by decide⟩

/-- **C5** (amended): for `ARG k[=default]`, the effective value is the
build-time override when one is provided, else the literal default, else
empty; when `k` was declared via ENV in the current stage a warning is
emitted and nothing is stored; otherwise the value is stored in both
`runEnvMap` and `varScope` when it is non-empty, and an empty effective
value is not stored (only the undefined-build-arg warning is emitted). -/
theorem arg_scoping (st : DfState) (buildArgs : List (GoStr × GoStr))
    (l : List GoStr) (hl : l ≠ []) :
    (∀ o, assocGet buildArgs (l.headD []) = some o →
        argEffectiveValue buildArgs l = o)
    ∧ (assocGet buildArgs (l.headD []) = none → 2 ≤ l.length →
        argEffectiveValue buildArgs l = sepJoin ' ' (l.drop 1))
    ∧ (assocGet buildArgs (l.headD []) = none → l.length < 2 →
        argEffectiveValue buildArgs l = [])
    ∧ (l.headD [] ∈ st.envMap →
        (argStep st buildArgs l).st = st
        ∧ DfWarning.argShadowedByEnv (l.headD []) ∈
            (argStep st buildArgs l).warnings)
    ∧ (l.headD [] ∉ st.envMap → argEffectiveValue buildArgs l ≠ [] →
        (argStep st buildArgs l).st.runEnvMap =
          assocSet st.runEnvMap (l.headD []) (argEffectiveValue buildArgs l)
        ∧ (argStep st buildArgs l).st.varScope =
          assocSet st.varScope (l.headD []) (argEffectiveValue buildArgs l)
        ∧ (argStep st buildArgs l).st.envMap = st.envMap)
    ∧ (l.headD [] ∉ st.envMap → argEffectiveValue buildArgs l = [] →
        (argStep st buildArgs l).st = st) := by
  cases l with
  | nil => exact absurd rfl hl
  | cons k rest =>
    have hval : ∀ w, assocGet buildArgs k = w →
        argEffectiveValue buildArgs (k :: rest) =
          (match w with
           | some barg => barg
           | none => argDefaultValue (k :: rest)) := by
      intro w hw
      simp [argEffectiveValue, hw]
    refine ⟨?_, ?_, ?_, ?_, ?_, ?_⟩
    · intro o ho
      exact hval (some o) ho
    · intro ho hlen
      rw [hval none ho]
      simp only [argDefaultValue]
      rw [if_pos hlen]
    · intro ho hlen
      rw [hval none ho]
      simp only [argDefaultValue]
      rw [if_neg (by omega)]
    · intro henv
      have henv9 : k ∈ st.envMap := henv
      refine ⟨?_, ?_⟩ <;> simp [argStep, henv9]
    · intro henv hv
      have henv9 : k ∉ st.envMap := henv
      cases hget : assocGet buildArgs k with
      | some o =>
        have he : argEffectiveValue buildArgs (k :: rest) = o := hval (some o) hget
        rw [he] at hv ⊢
        refine ⟨?_, ?_, ?_⟩ <;> simp [argStep, henv9, hget, hv]
      | none =>
        have he : argEffectiveValue buildArgs (k :: rest) = argDefaultValue (k :: rest) :=
          hval none hget
        rw [he] at hv ⊢
        refine ⟨?_, ?_, ?_⟩ <;> simp [argStep, henv9, hget, hv]
    · intro henv hv
      have henv9 : k ∉ st.envMap := henv
      cases hget : assocGet buildArgs k with
      | some o =>
        have he : argEffectiveValue buildArgs (k :: rest) = o := hval (some o) hget
        rw [he] at hv
        simp [argStep, henv9, hget, hv]
      | none =>
        have he : argEffectiveValue buildArgs (k :: rest) = argDefaultValue (k :: rest) :=
          hval none hget
        rw [he] at hv
        simp [argStep, henv9, hget, hv]

/-- Witness for `arg_scoping`: `ARG K=d` with build arg `K=o` stores the
override in `runEnvMap`. -/
theorem arg_scoping_witness :
    (argStep ⟨[], [], []⟩ [(gs "K", gs "o")] [gs "K", gs "d"]).st.runEnvMap =
      [(gs "K", gs "o")] := by
  have h := arg_scoping ⟨[], [], []⟩ [(gs "K", gs "o")] [gs "K", gs "d"]
    (by decide)
  have h5 := h.2.2.2.2.1 (by decide) (by decide)
  rw [h5.1]
  decide

/-- **C7** counterexample: exec form is not detected by the regex the spec
describes.  The repository's own test Dockerfile contains the instruction
`RUN [ "$VAR1" = entrypoint.sh ]`, whose line matches the declared pattern
`^[A-Za-z]+\s*\[[^\]]+\]\s*$`, yet `json.Unmarshal` fails on it, so the code
treats it as shell form (prefixing the shell vector) instead of taking the
bracketed tokens verbatim as the claim requires. -/
theorem execform_regex_counterexample :
    specRegexJsonForm (gs "RUN [ \"$VAR1\" = entrypoint.sh ]") = true
    ∧ isJsonForm (gs "RUN [ \"$VAR1\" = entrypoint.sh ]") = false
    ∧ readInstructionNodeCmdF defaultShell (gs "RUN [ \"$VAR1\" = entrypoint.sh ]")
        [gs "[", gs "\"$VAR1\"", gs "=", gs "entrypoint.sh", gs "]"] =
      .ok [gs "/bin/sh", gs "-c", gs "[ \"$VAR1\" = entrypoint.sh ]"] := by
  refine ⟨by decide, by decide, by rfl⟩

/-- **C7** (amended): exec form is detected by attempting to JSON-decode the
suffix of the trimmed instruction line after its first space as a string
array (the declared JSON-array regex is unused); exec-form elements are taken
verbatim (no variable substitution is applied); any other argument list is
converted to shell form as the current shell vector followed by the
space-joined arguments, where the shell defaults to `/bin/sh -c` and is
replaced by the most recent SHELL instruction. -/
theorem readInstructionNodeCmd_forms (shell : List GoStr) (original : GoStr)
    (r : List GoStr) (hr : r ≠ []) :
    readInstructionNodeCmdF shell original r =
      .ok (if isJsonForm original then r else shell ++ [sepJoin ' ' r])
    ∧ (isJsonForm original = true →
        readInstructionNodeCmdF shell original r = .ok r)
    ∧ (isJsonForm original = false →
        readInstructionNodeCmdF shell original r =
          .ok (shell ++ [sepJoin ' ' r]))
    ∧ defaultShell = [gs "/bin/sh", gs "-c"]
    ∧ (∀ v : List GoStr, v ≠ [] → useShellStep v = .ok v) := by
  refine ⟨?_, ?_, ?_, rfl, ?_⟩
  · simp [readInstructionNodeCmdF, readInstructionNodeVals, hr]
  · intro hj
    simp [readInstructionNodeCmdF, readInstructionNodeVals, hr, hj]
  · intro hj
    simp [readInstructionNodeCmdF, readInstructionNodeVals, hr, hj]
  · intro v hv
    simp [useShellStep, readInstructionNodeVals, hv]

/-- Witness for `readInstructionNodeCmd_forms`: a JSON exec-form CMD is taken
verbatim, including an unexpanded `$FOO` element. -/
theorem readInstructionNodeCmd_forms_witness :
    readInstructionNodeCmdF defaultShell (gs "CMD [\"/bin/echo\",\"$FOO\"]")
      [gs "/bin/echo", gs "$FOO"] = .ok [gs "/bin/echo", gs "$FOO"] := by
  have h := readInstructionNodeCmd_forms defaultShell
    (gs "CMD [\"/bin/echo\",\"$FOO\"]") [gs "/bin/echo", gs "$FOO"] (by decide)
  exact h.2.1 (by decide)

/-! ## ImageBuildEngine: BuildState.commitConfig, cached, CopyFile

Embedding of imagebuilder.go.  Store digests and bundle ids are abstracted as
naturals; store operations (`images.Image`, `img.Config`, `AddImageConfig`,
the op-specific build action, `cache.Put`) are oracle parameters, so the
theorems quantify over every possible outcome of the collaborators while the
control flow is translated from the source. -/

abbrev Digest := Nat

/-- A loaded image (manifest digest plus abstracted config blob). -/
structure ImageM where
  id : Digest
  configBlob : Nat
deriving DecidableEq

/-- OCI image config history entry. -/
structure HistoryEntry where
  createdBy : GoStr
  comment : GoStr
  emptyLayer : Bool
deriving DecidableEq

/-- The slice of the OCI image config manipulated by config commits. -/
structure ImgConfig where
  author : GoStr
  history : List HistoryEntry
deriving DecidableEq

/-- The builder state fields the cached-operation control flow manipulates. -/
structure BState where
  image : Option ImageM
  config : ImgConfig
  bundle : Option Nat
deriving DecidableEq

/-- The history entry appended by `BuildState.commitConfig`
(imagebuilder.go 350-354). -/
def commitConfigEntry (cfg : ImgConfig) (comment : GoStr) : HistoryEntry :=
  { createdBy := cfg.author, comment := comment, emptyLayer := false }

/-- The config passed to `ImageStore.AddImageConfig` by
`BuildState.commitConfig`: the current config with the new history entry
appended. -/
def commitConfigStep (st : BState) (comment : GoStr) : ImgConfig :=
  { st.config with
    history := st.config.history ++ [commitConfigEntry st.config comment] }

/-- **C2**: the history entry appended by every config-only commit has
`created_by` equal to the config's author and `comment` equal to the
operation's fingerprint, but `empty_layer` is set to `false`, not `true` as
the specification states — even though a config-only commit adds no layer.
The theorem evaluates the appended entry for every state and fingerprint. -/
theorem commitConfig_appends_emptyLayer_false (st : BState) (comment : GoStr) :
    (commitConfigStep st comment).history =
      st.config.history ++
        [{ createdBy := st.config.author, comment := comment,
           emptyLayer := false }]
    ∧ (commitConfigEntry st.config comment).emptyLayer = false := by
  exact ⟨rfl, rfl⟩

/-- Classification of a build-cache `Get` error: Go's type assertion
`err.(CacheError)` together with the `Temporary()` flag. -/
structure GetErr where
  isCacheError : Bool
  temporary : Bool
deriving DecidableEq

inductive CachedErr
  | getErr (e : GetErr)
  | cachedConfigErr
  | buildErr (n : Nat)
  | putErr (n : Nat)
deriving DecidableEq

structure CachedOut where
  err : Option CachedErr
  st : BState
  buildInvoked : Bool
  cacheInsert : Option (Option Digest × GoStr × Option Digest)
deriving DecidableEq

/-- `BuildState.cached` (imagebuilder.go 375-422).  Oracles: `getRes` is the
build-cache `Get` result for `(parent image id, fingerprint)`; `imgLoad d`
loads image `d` from the store (`none`: missing/garbage-collected);
`cfgLoad img` decodes the image's config (`setImage`); `callF` is the
op-specific build action returning the mutated state and an optional error;
`putRes` is the result of the final cache `Put`.  The output records whether
the build action ran and the cache insertion performed. -/
def cachedStep (st : BState) (fp : GoStr) (getRes : Except GetErr Digest)
    (imgLoad : Digest → Option ImageM) (cfgLoad : ImageM → Option ImgConfig)
    (callF : BState → BState × Option Nat) (putRes : Option Nat) : CachedOut :=
  let parent : Option Digest := st.image.map ImageM.id
  let build : CachedOut :=
    let r := callF st
    match r.2 with
    | some e =>
      { err := some (.buildErr e), st := { r.1 with bundle := none },
        buildInvoked := true, cacheInsert := none }
    | none =>
      let ins := some (parent, fp, r.1.image.map ImageM.id)
      match putRes with
      | some e =>
        { err := some (.putErr e), st := { r.1 with bundle := none },
          buildInvoked := true, cacheInsert := ins }
      | none =>
        { err := none, st := r.1, buildInvoked := true, cacheInsert := ins }
  match getRes with
  | .ok d =>
    match imgLoad d with
    | some img =>
      match cfgLoad img with
      | some cfg =>
        { err := none, st := { st with image := some img, config := cfg },
          buildInvoked := false, cacheInsert := none }
      | none =>
        { err := some .cachedConfigErr, st := { st with image := some img },
          buildInvoked := false, cacheInsert := none }
    | none => build
  | .error e =>
    if e.isCacheError && e.temporary then build
    else
      { err := some (.getErr e), st := st, buildInvoked := false,
        cacheInsert := none }

/-- **C3**: control flow of `BuildState.cached` for every build operation:
on a cache hit whose image still exists (and whose config decodes) the build
action is not invoked and the image is set to the cached one; when `Get`
fails with a temporary cache error, or the cached image cannot be loaded,
the engine builds and (on success of the action) inserts the result under
`(parent id, fingerprint)`; when `Get` fails non-temporarily the operation
aborts with that error without building; and on any error of the build
phase (the action itself or the cache `Put`) the in-flight bundle is
discarded. -/
theorem cached_control_flow (st : BState) (fp : GoStr)
    (getRes : Except GetErr Digest) (imgLoad : Digest → Option ImageM)
    (cfgLoad : ImageM → Option ImgConfig)
    (callF : BState → BState × Option Nat) (putRes : Option Nat) :
    (∀ d img cfg, getRes = .ok d → imgLoad d = some img →
        cfgLoad img = some cfg →
        (cachedStep st fp getRes imgLoad cfgLoad callF putRes).buildInvoked = false
        ∧ (cachedStep st fp getRes imgLoad cfgLoad callF putRes).err = none
        ∧ (cachedStep st fp getRes imgLoad cfgLoad callF putRes).st.image = some img)
    ∧ (∀ d, getRes = .ok d → imgLoad d = none →
        (cachedStep st fp getRes imgLoad cfgLoad callF putRes).buildInvoked = true)
    ∧ (∀ e, getRes = .error e → e.isCacheError = true → e.temporary = true →
        (cachedStep st fp getRes imgLoad cfgLoad callF putRes).buildInvoked = true)
    ∧ (∀ e, getRes = .error e → (e.isCacheError && e.temporary) = false →
        cachedStep st fp getRes imgLoad cfgLoad callF putRes =
          { err := some (.getErr e), st := st, buildInvoked := false,
            cacheInsert := none })
    ∧ (∀ st1,
        (cachedStep st fp getRes imgLoad cfgLoad callF putRes).buildInvoked = true →
        callF st = (st1, none) →
        (cachedStep st fp getRes imgLoad cfgLoad callF putRes).cacheInsert =
          some (st.image.map ImageM.id, fp, st1.image.map ImageM.id))
    ∧ (∀ st1 e,
        (cachedStep st fp getRes imgLoad cfgLoad callF putRes).buildInvoked = true →
        callF st = (st1, some e) →
        (cachedStep st fp getRes imgLoad cfgLoad callF putRes).st.bundle = none
        ∧ (cachedStep st fp getRes imgLoad cfgLoad callF putRes).err =
            some (.buildErr e))
    ∧ (∀ st1 e,
        (cachedStep st fp getRes imgLoad cfgLoad callF putRes).buildInvoked = true →
        callF st = (st1, none) → putRes = some e →
        (cachedStep st fp getRes imgLoad cfgLoad callF putRes).st.bundle = none
        ∧ (cachedStep st fp getRes imgLoad cfgLoad callF putRes).err =
            some (.putErr e)) := by
  refine ⟨?_, ?_, ?_, ?_, ?_, ?_, ?_⟩
  · intro d img cfg hget himg hcfg
    refine ⟨?_, ?_, ?_⟩ <;> simp [cachedStep, hget, himg, hcfg]
  · intro d hget himg
    rcases hc : callF st with ⟨st1, cerr⟩
    cases cerr <;> cases putRes <;> simp [cachedStep, hget, himg, hc]
  · intro e hget h1 h2
    rcases hc : callF st with ⟨st1, cerr⟩
    cases cerr <;> cases putRes <;> simp [cachedStep, hget, h1, h2, hc]
  · intro e hget hflag
    simp [cachedStep, hget, hflag]
  · intro st1 hbuilt hc
    rcases hget : getRes with e | d
    · by_cases hflag : (e.isCacheError && e.temporary) = true
      · cases putRes <;> simp [cachedStep, hget, hflag, hc]
      · rw [hget] at hbuilt
        have hflag2 : ¬(e.isCacheError = true ∧ e.temporary = true) := by
          simpa [Bool.and_eq_true] using hflag
        simp [cachedStep, hflag2] at hbuilt
    · rcases himg : imgLoad d with _ | img
      · cases putRes <;> simp [cachedStep, hget, himg, hc]
      · rcases hcfg : cfgLoad img with _ | cfg
        · rw [hget] at hbuilt
          simp [cachedStep, himg, hcfg] at hbuilt
        · rw [hget] at hbuilt
          simp [cachedStep, himg, hcfg] at hbuilt
  · intro st1 e hbuilt hc
    rcases hget : getRes with ge | d
    · by_cases hflag : (ge.isCacheError && ge.temporary) = true
      · refine ⟨?_, ?_⟩ <;> simp [cachedStep, hget, hflag, hc]
      · rw [hget] at hbuilt
        have hflag2 : ¬(ge.isCacheError = true ∧ ge.temporary = true) := by
          simpa [Bool.and_eq_true] using hflag
        simp [cachedStep, hflag2] at hbuilt
    · rcases himg : imgLoad d with _ | img
      · refine ⟨?_, ?_⟩ <;> simp [cachedStep, hget, himg, hc]
      · rcases hcfg : cfgLoad img with _ | cfg
        · rw [hget] at hbuilt
          simp [cachedStep, himg, hcfg] at hbuilt
        · rw [hget] at hbuilt
          simp [cachedStep, himg, hcfg] at hbuilt
  · intro st1 e hbuilt hc hput
    rcases hget : getRes with ge | d
    · by_cases hflag : (ge.isCacheError && ge.temporary) = true
      · refine ⟨?_, ?_⟩ <;> simp [cachedStep, hget, hflag, hc, hput]
      · rw [hget] at hbuilt
        have hflag2 : ¬(ge.isCacheError = true ∧ ge.temporary = true) := by
          simpa [Bool.and_eq_true] using hflag
        simp [cachedStep, hflag2] at hbuilt
    · rcases himg : imgLoad d with _ | img
      · refine ⟨?_, ?_⟩ <;> simp [cachedStep, hget, himg, hc, hput]
      · rcases hcfg : cfgLoad img with _ | cfg
        · rw [hget] at hbuilt
          simp [cachedStep, himg, hcfg] at hbuilt
        · rw [hget] at hbuilt
          simp [cachedStep, himg, hcfg] at hbuilt

/-- Witness for `cached_control_flow`: a hit on cached digest 5 whose image
and config load, with a no-op build action. -/
theorem cached_control_flow_witness :
    (cachedStep ⟨some ⟨1, 0⟩, ⟨gs "a", []⟩, none⟩ (gs "AUTHOR bob") (.ok 5)
        (fun d => if d = 5 then some ⟨5, 0⟩ else none)
        (fun _ => some ⟨gs "bob", []⟩) (fun s => (s, none)) none).buildInvoked =
      false
    ∧ (cachedStep ⟨some ⟨1, 0⟩, ⟨gs "a", []⟩, none⟩ (gs "AUTHOR bob") (.ok 5)
        (fun d => if d = 5 then some ⟨5, 0⟩ else none)
        (fun _ => some ⟨gs "bob", []⟩) (fun s => (s, none)) none).st.image =
      some ⟨5, 0⟩ := by
  have h := (cached_control_flow ⟨some ⟨1, 0⟩, ⟨gs "a", []⟩, none⟩
    (gs "AUTHOR bob") (.ok 5) (fun d => if d = 5 then some ⟨5, 0⟩ else none)
    (fun _ => some ⟨gs "bob", []⟩) (fun s => (s, none)) none).1
    5 ⟨5, 0⟩ ⟨gs "bob", []⟩ rfl (by decide) rfl
  exact ⟨h.1, h.2.2⟩

structure CopyOut where
  err : Option Nat
  bundle : Option Nat
  commitComment : Option GoStr
deriving DecidableEq

/-- `BuildState.CopyFile` (imagebuilder.go 293-319).  `ctx` is the build
context (source paths with their content bytes); it flows only into the
filesystem `Add` oracle (`addRes`).  `initRes` is the `initBundle` outcome,
`commitRes` the `commitLayer` outcome, and `cache` the build-cache state,
which the function threads through untouched: `CopyFile` contains no
`cache.Get`/`cache.Put` call and commits with the literal comment
"add file to image" (the TODO at line 317 admits the missing content hash).
On any error the bundle is closed and discarded. -/
def copyFileStep (ctx : List (GoStr × List Nat))
    (initRes : Except Nat Nat) (addRes : Option Nat) (commitRes : Option Nat)
    (cache : List ((Option Digest × GoStr) × Digest)) :
    CopyOut × List ((Option Digest × GoStr) × Digest) :=
  match initRes with
  | .error e => ({ err := some e, bundle := none, commitComment := none }, cache)
  | .ok b =>
    match addRes with
    | some e => ({ err := some e, bundle := none, commitComment := none }, cache)
    | none =>
      match commitRes with
      | some e =>
        ({ err := some e, bundle := none,
           commitComment := some (gs "add file to image") }, cache)
      | none =>
        ({ err := none, bundle := some b,
           commitComment := some (gs "add file to image") }, cache)

/-- **C1**: `BuildState.CopyFile` derives no fingerprint from the copied
files: its behaviour is identical for any two build contexts (the commit
comment is the constant "add file to image"), and the build-cache state is
returned unchanged — the operation performs no cache lookup or insertion at
all.  In particular no BuildCache key distinguishes different source file
contents; the claimed content digest does not exist in the code. -/
theorem copyFile_no_content_fingerprint (ctx1 ctx2 : List (GoStr × List Nat))
    (initRes : Except Nat Nat) (addRes commitRes : Option Nat)
    (cache : List ((Option Digest × GoStr) × Digest)) :
    copyFileStep ctx1 initRes addRes commitRes cache =
      copyFileStep ctx2 initRes addRes commitRes cache
    ∧ (copyFileStep ctx1 initRes addRes commitRes cache).2 = cache
    ∧ ((copyFileStep ctx1 initRes addRes commitRes cache).1.commitComment = none
        ∨ (copyFileStep ctx1 initRes addRes commitRes cache).1.commitComment =
            some (gs "add file to image"))
    ∧ ((copyFileStep ctx1 initRes addRes commitRes cache).1.err = none
        ∨ (copyFileStep ctx1 initRes addRes commitRes cache).1.bundle = none) := by
  rcases initRes with e | b
  · exact ⟨rfl, rfl, Or.inl rfl, Or.inr rfl⟩
  · rcases addRes with _ | e
    · rcases commitRes with _ | e
      · exact ⟨rfl, rfl, Or.inr rfl, Or.inl rfl⟩
      · exact ⟨rfl, rfl, Or.inr rfl, Or.inr rfl⟩
    · exact ⟨rfl, rfl, Or.inl rfl, Or.inr rfl⟩

-- Digit-string lemmas used by the runtime-spec builder embedding.

theorem natDigitsAux_ne_nil (fuel n : Nat) (hf : 0 < fuel) :
    natDigitsAux fuel n ≠ [] := by
  cases fuel with
  | zero => omega
  | succ f =>
    simp only [natDigitsAux]
    by_cases h : n < 10
    · simp [h]
    · simp [h]

theorem natDigits_ne_nil (n : Nat) : natDigits n ≠ [] :=
  natDigitsAux_ne_nil (n + 1) n (by omega)

theorem digitChar_ne_colon : ∀ n, n < 10 → digitChar n ≠ ':' := by
  decide

theorem natDigitsAux_no_colon (fuel : Nat) :
    ∀ n, ':' ∉ natDigitsAux fuel n := by
  induction fuel with
  | zero => intro n; simp [natDigitsAux]
  | succ f ih =>
    intro n
    simp only [natDigitsAux]
    by_cases h : n < 10
    · simp [h]
      exact fun e => digitChar_ne_colon n h e.symm
    · simp only [if_neg h]
      intro hmem
      rcases List.mem_append.mp hmem with hm | hm
      · exact ih (n / 10) hm
      · have h10 : n % 10 < 10 := Nat.mod_lt n (by omega)
        rcases List.mem_singleton.mp hm with hm
        exact digitChar_ne_colon (n % 10) h10 hm.symm

theorem natDigits_no_colon (n : Nat) : ':' ∉ natDigits n :=
  natDigitsAux_no_colon (n + 1) n

theorem digitChar_eq_zero_iff : ∀ n, n < 10 → (digitChar n = '0' ↔ n = 0) := by
  decide

theorem natDigits_eq_zero_iff (n : Nat) : natDigits n = ['0'] ↔ n = 0 := by
  constructor
  · intro h
    unfold natDigits natDigitsAux at h
    by_cases hn : n < 10
    · rw [if_pos hn] at h
      exact (digitChar_eq_zero_iff n hn).mp (List.singleton_injective h)
    · rw [if_neg hn] at h
      have hne := natDigitsAux_ne_nil n (n / 10) (by omega)
      have hlen := congrArg List.length h
      simp [List.length_append] at hlen
      exact absurd hlen hne
  · intro h
    subst h
    decide

/-- Splitting at a separator absent from both prefixes is unambiguous. -/
theorem append_sep_inj (a c b d : GoStr) (ha : ':' ∉ a) (hc : ':' ∉ c)
    (h : a ++ ':' :: b = c ++ ':' :: d) : a = c ∧ b = d := by
  induction a generalizing c with
  | nil =>
    cases c with
    | nil =>
      simp at h
      exact ⟨rfl, h⟩
    | cons y c2 =>
      simp at h
      exact absurd (by simp [← h.1]) hc
  | cons x a2 ih =>
    cases c with
    | nil =>
      simp at h
      exact absurd (by simp [h.1]) ha
    | cons y c2 =>
      simp at h
      obtain ⟨hxy, hrest⟩ := h
      have := ih c2 (fun hm => ha (List.mem_cons_of_mem x hm))
        (fun hm => hc (List.mem_cons_of_mem y hm)) hrest
      exact ⟨by rw [hxy, this.1], this.2⟩

/-! ## SpecBuilder (runtime-spec generation)

Embedding of the SpecBuilder: `SetPRootPath`, `AddPRootPortMapping`,
`SetProcessEntrypoint`/`SetProcessCmd`, `applyEntrypoint` and `Spec`.
The `generate.Generator` state is embedded as the record of spec fields the
claims concern; its setters perform the list/record updates the library
performs.  User-name resolution (`idutils`) lives outside these sources: the
resolved ids are an oracle parameter, and the numeric id rendering is
modelled from the spec's `uid[:gid]` user-string format. -/

/-- Modelled from the spec: `idutils.User` — the user reference as a pair of
strings (`name[:group]` or `uid[:gid]`). -/
structure GoUser where
  user : GoStr
  group : GoStr
deriving DecidableEq

/-- Modelled from the spec: `idutils.UserIds` — concrete numeric ids produced
by resolving the user against the bundle's `/etc/passwd` and `/etc/group`. -/
structure UserIds where
  uid : Nat
  gid : Nat
deriving DecidableEq

/-- Modelled from the spec: `UserIds.User()` renders the resolved ids back to
a user reference of numeric strings. -/
def UserIds.toUser (u : UserIds) : GoUser :=
  ⟨natDigits u.uid, natDigits u.gid⟩

/-- Modelled from the spec: `User.String()` for a resolved user is
`uid:gid`. -/
def GoUser.render (u : GoUser) : GoStr := u.user ++ ':' :: u.group

theorem render_eq_00_iff (u : UserIds) :
    u.toUser.render = gs "0:0" ↔ u.uid = 0 ∧ u.gid = 0 := by
  constructor
  · intro h
    have hsplit := append_sep_inj (natDigits u.uid) ['0'] (natDigits u.gid) ['0']
      (natDigits_no_colon u.uid) (by decide) h
    exact ⟨(natDigits_eq_zero_iff u.uid).mp hsplit.1,
      (natDigits_eq_zero_iff u.gid).mp hsplit.2⟩
  · intro h
    rw [show u = ⟨0, 0⟩ from by cases u; simp_all]
    decide

inductive MountKind
  | tmpfs
  | bind
deriving DecidableEq

structure Mount where
  source : GoStr
  dest : GoStr
  kind : MountKind
  options : List GoStr
deriving DecidableEq

/-- The slice of the generated OCI runtime spec the claims concern. -/
structure GenState where
  args : List GoStr
  env : List (GoStr × GoStr)
  caps : List GoStr
  mounts : List Mount
  uid : Nat
  gid : Nat
  uidMappings : List (Nat × Nat × Nat)
  gidMappings : List (Nat × Nat × Nat)
  seccompDefault : Bool
deriving DecidableEq

structure PRootOpts where
  path : GoStr
  ports : List GoStr
deriving DecidableEq

structure SpecB where
  gen : GenState
  entrypoint : Option (List GoStr)
  cmd : Option (List GoStr)
  user : GoUser
  customSeccomp : Bool
  proot : Option PRootOpts
  rootless : Bool
deriving DecidableEq

/-- `strings.ToUpper` on an ASCII character. -/
def asciiUpper (c : Char) : Char :=
  if 'a' ≤ c ∧ c ≤ 'z' then Char.ofNat (c.toNat - 32) else c

/-- `generate.Generator.AddProcessCapability`: upper-case the name and add it
to the capability sets when absent. -/
def addProcessCapability (g : GenState) (c : GoStr) : GenState :=
  let c2 := c.map asciiUpper
  if c2 ∈ g.caps then g else { g with caps := g.caps ++ [c2] }

/-- `SpecBuilder.SetPRootPath` (lines 159-170): record the path, mount a
tmpfs at /dev/proot, bind-mount the proot binary read-only at
/dev/proot/proot, set PROOT_TMP_DIR and PROOT_NO_SECCOMP, and add
CAP_SYS_PTRACE (the code passes "CAP_" + the lowercase capability name; the
generator upper-cases it). -/
def setPRootPath (b : SpecB) (prootPath : GoStr) : SpecB :=
  let pr : PRootOpts :=
    match b.proot with
    | none => { path := prootPath, ports := [] }
    | some p => { p with path := prootPath }
  let g := b.gen
  let g := { g with mounts := g.mounts ++
    ([{ source := gs "tmpfs", dest := gs "/dev/proot", kind := .tmpfs,
        options := [gs "exec", gs "mode=755", gs "size=32256k"] },
      { source := prootPath, dest := gs "/dev/proot/proot", kind := .bind,
        options := [gs "bind", gs "ro"] }] : List Mount) }
  let g := { g with env := g.env ++
    [(gs "PROOT_TMP_DIR", gs "/dev/proot"), (gs "PROOT_NO_SECCOMP", gs "1")] }
  let g := addProcessCapability g (gs "CAP_" ++ gs "sys_ptrace")
  { b with proot := some pr, gen := g }

/-- `SpecBuilder.AddPRootPortMapping` (lines 172-177). -/
def addPRootPortMapping (b : SpecB) (published target : GoStr) : SpecB :=
  let pr : PRootOpts :=
    match b.proot with
    | none => { path := [], ports := [published ++ ':' :: target] }
    | some p => { p with ports := p.ports ++ [published ++ ':' :: target] }
  { b with proot := some pr }

/-- `SpecBuilder.SetProcessEntrypoint`: also clears the command. -/
def setProcessEntrypoint (b : SpecB) (v : Option (List GoStr)) : SpecB :=
  { b with entrypoint := v, cmd := none }

/-- `SpecBuilder.SetProcessCmd`. -/
def setProcessCmd (b : SpecB) (v : Option (List GoStr)) : SpecB :=
  { b with cmd := v }

/-- The entrypoint/cmd combination of `applyEntrypoint` (lines 189-200). -/
def entrypointArgs (b : SpecB) : List GoStr :=
  match b.entrypoint, b.cmd with
  | some ep, some c => ep ++ c
  | some ep, none => ep
  | none, some c => c
  | none, none => []

/-- `SpecBuilder.applyEntrypoint` (lines 188-215): prefix the PRoot argument
vector when PRoot is configured, then set the process args. -/
def applyEntrypoint (b : SpecB) : SpecB :=
  let args := entrypointArgs b
  let args :=
    match b.proot with
    | none => args
    | some pr =>
      let pa := [gs "/dev/proot/proot", gs "--kill-on-exit", gs "-n"]
      let pa :=
        if b.user.render = gs "0:0" then pa ++ [gs "-0"]
        else pa ++ [gs "-i", b.user.render]
      let pa := pa ++ pr.ports.flatMap (fun port => [gs "-p", port])
      pa ++ args
  { b with gen := { b.gen with args := args } }

inductive SpecErr
  | resolveFailed
  | uidExceedsRange
  | gidExceedsRange
  | prootPathMissing
  | rootlessNonZeroUser
deriving DecidableEq

/-- `SpecBuilder.Spec` (lines 274-320).  `resolveRes` is the outcome of
`b.user.Resolve(rootfs)` (an oracle; the resolution code is outside these
sources), `euid`/`egid` the caller's effective ids.  Note the strict `>`
bounds checks and the `uint32` conversions (`% 2^32`) of the source. -/
def specBuild (b : SpecB) (resolveRes : Except Unit UserIds) (euid egid : Nat) :
    Except SpecErr GenState :=
  match resolveRes with
  | .error _ => .error .resolveFailed
  | .ok usr =>
    let b := { b with user := usr.toUser }
    if usr.uid > 2 ^ 32 then .error .uidExceedsRange
    else if usr.gid > 2 ^ 32 then .error .gidExceedsRange
    else
      let checked : Except SpecErr UserIds :=
        match b.proot with
        | some pr =>
          if pr.path = [] then .error .prootPathMissing
          else .ok ⟨0, 0⟩
        | none =>
          if b.rootless = true ∧ (usr.uid ≠ 0 ∨ usr.gid ≠ 0) then
            .error .rootlessNonZeroUser
          else .ok usr
      match checked with
      | .error e => .error e
      | .ok usr1 =>
        let b := applyEntrypoint b
        let g := b.gen
        let g := { g with uid := usr1.uid % 2 ^ 32, gid := usr1.gid % 2 ^ 32 }
        let g :=
          if b.rootless = true then
            { g with uidMappings := [(euid % 2 ^ 32, usr1.uid % 2 ^ 32, 1)],
                     gidMappings := [(egid % 2 ^ 32, usr1.gid % 2 ^ 32, 1)] }
          else g
        let g := if !b.customSeccomp then { g with seccompDefault := true } else g
        .ok g

/-- **C4**: in rootless mode with no PRoot path configured, spec generation
succeeds when the resolved user is 0:0 — mapping the caller's euid/egid to
container 0:0 with size 1 — and fails with an error for any non-zero
resolved uid or gid. -/

theorem spec_rootless_user (b : SpecB) (euid egid : Nat)
    (hroot : b.rootless = true) (hpr : b.proot = none) :
    (∃ g, specBuild b (.ok ⟨0, 0⟩) euid egid = .ok g
        ∧ g.uidMappings = [(euid % 2 ^ 32, 0, 1)]
        ∧ g.gidMappings = [(egid % 2 ^ 32, 0, 1)]
        ∧ g.uid = 0 ∧ g.gid = 0)
    ∧ (∀ usr : UserIds, usr.uid ≠ 0 ∨ usr.gid ≠ 0 →
        ∃ e, specBuild b (.ok usr) euid egid = .error e) := by
  constructor
  · rcases hspec : specBuild b (.ok ⟨0, 0⟩) euid egid with e | g
    · exfalso
      cases hcs : b.customSeccomp <;>
        simp [specBuild, hpr, hroot, hcs] at hspec
    · refine ⟨g, rfl, ?_, ?_, ?_, ?_⟩ <;>
        cases hcs : b.customSeccomp <;>
        simp [specBuild, applyEntrypoint, hpr, hroot, hcs] at hspec <;>
        subst hspec <;>
        simp
  · intro usr hne
    by_cases hu : usr.uid > 2 ^ 32
    · have hu3 : 4294967296 < usr.uid := by simpa using hu
      exact ⟨.uidExceedsRange, by simp [specBuild, hu3]⟩
    · have hu2 : ¬4294967296 < usr.uid := by simpa using hu
      by_cases hg : usr.gid > 2 ^ 32
      · have hg3 : 4294967296 < usr.gid := by simpa using hg
        exact ⟨.gidExceedsRange, by simp [specBuild, hu2, hg3]⟩
      · have hg2 : ¬4294967296 < usr.gid := by simpa using hg
        refine ⟨.rootlessNonZeroUser, ?_⟩
        simp [specBuild, hpr, hroot, hu2, hg2, hne]

/-- Witness for `spec_rootless_user`: rootless builder, host ids 1000. -/
theorem spec_rootless_user_witness :
    (∃ g, specBuild
        { gen := { args := [], env := [], caps := [], mounts := [], uid := 0,
                   gid := 0, uidMappings := [], gidMappings := [],
                   seccompDefault := false },
          entrypoint := none, cmd := none, user := ⟨gs "0", gs "0"⟩,
          customSeccomp := false, proot := none, rootless := true }
        (.ok ⟨0, 0⟩) 1000 1000 = .ok g
      ∧ g.uidMappings = [(1000 % 2 ^ 32, 0, 1)])
    ∧ ∃ e, specBuild
        { gen := { args := [], env := [], caps := [], mounts := [], uid := 0,
                   gid := 0, uidMappings := [], gidMappings := [],
                   seccompDefault := false },
          entrypoint := none, cmd := none, user := ⟨gs "0", gs "0"⟩,
          customSeccomp := false, proot := none, rootless := true }
        (.ok ⟨1000, 1000⟩) 1000 1000 = .error e := by
  have h := spec_rootless_user
    { gen := { args := [], env := [], caps := [], mounts := [], uid := 0,
               gid := 0, uidMappings := [], gidMappings := [],
               seccompDefault := false },
      entrypoint := none, cmd := none, user := ⟨gs "0", gs "0"⟩,
      customSeccomp := false, proot := none, rootless := true }
    1000 1000 rfl rfl
  obtain ⟨⟨g, hg, hm, _⟩, herr⟩ := h
  exact ⟨⟨g, hg, hm⟩, herr ⟨1000, 1000⟩ (Or.inl (by decide))⟩

theorem capname_eval :
    (gs "CAP_" ++ gs "sys_ptrace").map asciiUpper = gs "CAP_SYS_PTRACE" := by
  decide

theorem addProcessCapability_mem (g : GenState) (c : GoStr) :
    c.map asciiUpper ∈ (addProcessCapability g c).caps := by
  unfold addProcessCapability
  by_cases h : c.map asciiUpper ∈ g.caps
  · simpa [h]
  · simp [h]

theorem addProcessCapability_fields (g : GenState) (c : GoStr) :
    (addProcessCapability g c).mounts = g.mounts
    ∧ (addProcessCapability g c).env = g.env
    ∧ (addProcessCapability g c).args = g.args := by
  unfold addProcessCapability
  by_cases h : c.map asciiUpper ∈ g.caps <;> simp [h]

/-- **C6**: with a PRoot binary path set, `SetPRootPath` mounts a tmpfs at
/dev/proot, bind-mounts the binary read-only at /dev/proot/proot, sets
PROOT_TMP_DIR=/dev/proot and PROOT_NO_SECCOMP=1 and adds CAP_SYS_PTRACE;
`AddPRootPortMapping` registers `published:target`; and the generated process
args are the entrypoint/cmd args prefixed by
`/dev/proot/proot --kill-on-exit -n`, then `-0` when the resolved user is
0:0 and otherwise `-i uid:gid`, then `-p published:target` for each
registered port mapping. -/
theorem spec_proot_argv (b : SpecB) (p published target : GoStr) (pr : PRootOpts)
    (usr : UserIds) (euid egid : Nat)
    (hpr : b.proot = some pr) (hpath : ¬ pr.path = [])
    (hu : ¬ usr.uid > 2 ^ 32) (hg : ¬ usr.gid > 2 ^ 32) :
    (setPRootPath b p).gen.mounts = b.gen.mounts ++
        ([{ source := gs "tmpfs", dest := gs "/dev/proot", kind := .tmpfs,
            options := [gs "exec", gs "mode=755", gs "size=32256k"] },
          { source := p, dest := gs "/dev/proot/proot", kind := .bind,
            options := [gs "bind", gs "ro"] }] : List Mount)
    ∧ (setPRootPath b p).gen.env = b.gen.env ++
        [(gs "PROOT_TMP_DIR", gs "/dev/proot"), (gs "PROOT_NO_SECCOMP", gs "1")]
    ∧ gs "CAP_SYS_PTRACE" ∈ (setPRootPath b p).gen.caps
    ∧ (setPRootPath b p).proot.map PRootOpts.path = some p
    ∧ (addPRootPortMapping b published target).proot =
        some { pr with ports := pr.ports ++ [published ++ ':' :: target] }
    ∧ (∃ g, specBuild b (.ok usr) euid egid = .ok g
        ∧ g.args =
          [gs "/dev/proot/proot", gs "--kill-on-exit", gs "-n"]
          ++ (if usr.uid = 0 ∧ usr.gid = 0 then [gs "-0"]
              else [gs "-i", usr.toUser.render])
          ++ pr.ports.flatMap (fun port => [gs "-p", port])
          ++ entrypointArgs b) := by
  have hu2 : ¬4294967296 < usr.uid := by simpa using hu
  have hg2 : ¬4294967296 < usr.gid := by simpa using hg
  refine ⟨?_, ?_, ?_, ?_, ?_, ?_⟩
  · simp [setPRootPath, (addProcessCapability_fields _ _).1]
  · simp [setPRootPath, (addProcessCapability_fields _ _).2.1]
  · simp only [setPRootPath]
    rw [← capname_eval]
    exact addProcessCapability_mem _ _
  · simp [setPRootPath, hpr]
  · simp [addPRootPortMapping, hpr]
  · rcases hspec : specBuild b (.ok usr) euid egid with e | g
    · exfalso
      cases hcs : b.customSeccomp <;>
        simp [specBuild, hpr, hpath, hu2, hg2, hcs] at hspec
    · refine ⟨g, rfl, ?_⟩
      by_cases h00 : usr.uid = 0 ∧ usr.gid = 0
      · have hr : usr.toUser.render = gs "0:0" := (render_eq_00_iff usr).mpr h00
        cases hcs : b.customSeccomp <;> cases hrl : b.rootless <;>
          simp [specBuild, applyEntrypoint, entrypointArgs, hpr, hpath, hu2,
            hg2, hr, hcs, hrl] at hspec <;>
          subst hspec <;>
          simp [h00, entrypointArgs]
      · have hr : ¬ usr.toUser.render = gs "0:0" :=
          fun he => h00 ((render_eq_00_iff usr).mp he)
        cases hcs : b.customSeccomp <;> cases hrl : b.rootless <;>
          simp [specBuild, applyEntrypoint, entrypointArgs, hpr, hpath, hu2,
            hg2, hr, hcs, hrl] at hspec <;>
          subst hspec <;>
          simp [h00, entrypointArgs, hr]

/-- Witness for `spec_proot_argv`: proot at /p, one registered port mapping,
entrypoint `/bin/app`, resolved user 1000:1000, rootless. -/
theorem spec_proot_argv_witness :
    ∃ g, specBuild
        { gen := { args := [], env := [], caps := [], mounts := [], uid := 0,
                   gid := 0, uidMappings := [], gidMappings := [],
                   seccompDefault := false },
          entrypoint := some [gs "/bin/app"], cmd := none,
          user := ⟨gs "0", gs "0"⟩, customSeccomp := false,
          proot := some ⟨gs "/p", [gs "8080:80"]⟩, rootless := true }
        (.ok ⟨1000, 1000⟩) 1000 1000 = .ok g
      ∧ g.args = [gs "/dev/proot/proot", gs "--kill-on-exit", gs "-n",
          gs "-i", gs "1000:1000", gs "-p", gs "8080:80", gs "/bin/app"] := by
  have h := (spec_proot_argv
    { gen := { args := [], env := [], caps := [], mounts := [], uid := 0,
               gid := 0, uidMappings := [], gidMappings := [],
               seccompDefault := false },
      entrypoint := some [gs "/bin/app"], cmd := none,
      user := ⟨gs "0", gs "0"⟩, customSeccomp := false,
      proot := some ⟨gs "/p", [gs "8080:80"]⟩, rootless := true }
    (gs "/p") (gs "x") (gs "y") ⟨gs "/p", [gs "8080:80"]⟩ ⟨1000, 1000⟩
    1000 1000 rfl (by decide) (by decide) (by decide)).2.2.2.2.2
  obtain ⟨g, hg, hargs⟩ := h
  refine ⟨g, hg, ?_⟩
  rw [hargs]
  decide

/-- **C8**: the oversize check of `SpecBuilder.Spec` uses strict `>`
(`usr.Uid > 1<<32`), so uid = 2^32 — a value not representable in 32 bits —
is NOT rejected; the subsequent `uint32` conversion silently truncates it to
0 in the generated spec's process uid.  The claim (reject every uid/gid
≥ 2^32, never truncate) fails at exactly this boundary value: generation
succeeds and the process uid is 0. -/
theorem spec_uid_2pow32_truncated :
    (specBuild
        { gen := { args := [], env := [], caps := [], mounts := [], uid := 0,
                   gid := 0, uidMappings := [], gidMappings := [],
                   seccompDefault := false },
          entrypoint := none, cmd := none, user := ⟨gs "0", gs "0"⟩,
          customSeccomp := false, proot := none, rootless := false }
        (.ok ⟨2 ^ 32, 0⟩) 1000 1000).isOk = true
    ∧ (specBuild
        { gen := { args := [], env := [], caps := [], mounts := [], uid := 0,
                   gid := 0, uidMappings := [], gidMappings := [],
                   seccompDefault := false },
          entrypoint := none, cmd := none, user := ⟨gs "0", gs "0"⟩,
          customSeccomp := false, proot := none, rootless := false }
        (.ok ⟨2 ^ 32, 0⟩) 1000 1000).toOption.map GenState.uid = some 0
    ∧ (2 : Nat) ^ 32 % 2 ^ 32 = 0 := by
  refine ⟨by decide, by decide, by decide⟩

/-! ## Lockfile

Embedding of pkg/lock/lockfile.go.  The per-file in-process mutex
(`lock(file)`/`unlock(file)`, defined elsewhere in pkg/lock) is modelled from
the spec: "In-process, a per-file mutex guards the lockfile"; for a single
lock file it is a held/free flag.  Filesystem effects (`MkdirAll`, the
nightlyone lockfile `TryLock`/`Unlock`, `awaitFileChange`) are oracle
outcomes. -/

/-- In-process mutex and filesystem lock state of one lock file. -/
structure LockSt where
  mutexHeld : Bool
  fsHeld : Bool
deriving DecidableEq

inductive LkErr
  | mkdirFail
  | tryFail
  | watchFail
  | unlockFail
deriving DecidableEq

/-- Outcome of one `lockfile.TryLock` attempt inside the `Lock` retry loop:
success, a temporary error (`TemporaryError` with `Temporary()` true), or any
other error. -/
inductive TryOut
  | ok
  | errTemp
  | errPerm
deriving DecidableEq

/-- Outcome of `awaitFileChange`: success, an IsNotExist error (tolerated),
or any other error. -/
inductive AwaitOut
  | ok
  | errNotExist
  | errOther
deriving DecidableEq

structure LockRound where
  tryRes : TryOut
  awaitRes : AwaitOut
deriving DecidableEq

/-- `Lockfile.TryLock` (lockfile.go 25-40): acquire the in-process mutex,
create the parent directory, try the filesystem lock; the deferred handler
releases the mutex whenever an error is returned. -/
def tryLockStep (st : LockSt) (mkdirOk : Bool) (fsTryOk : Bool) :
    Option LkErr × LockSt :=
  let st := { st with mutexHeld := true }
  if !mkdirOk then (some .mkdirFail, { st with mutexHeld := false })
  else if !fsTryOk then (some .tryFail, { st with mutexHeld := false })
  else (none, { st with fsHeld := true })

/-- The retry loop of `Lockfile.Lock` (lines 60-69): each round tries the
filesystem lock; on success or a non-temporary error it returns (the
deferred handler releasing the mutex on error); on a temporary error it
waits for the lockfile to change, aborting only on a watch error that is not
IsNotExist.  `none` means the given rounds were exhausted with the Go loop
still retrying. -/
def lockLoop (st : LockSt) : List LockRound → Option (Option LkErr × LockSt)
  | [] => none
  | r :: rest =>
    match r.tryRes with
    | .ok => some (none, { st with fsHeld := true })
    | .errPerm => some (some .tryFail, { st with mutexHeld := false })
    | .errTemp =>
      match r.awaitRes with
      | .errOther => some (some .watchFail, { st with mutexHeld := false })
      | _ => lockLoop st rest

/-- `Lockfile.Lock` (lines 46-71). -/
def lockStep (st : LockSt) (mkdirOk : Bool) (rounds : List LockRound) :
    Option (Option LkErr × LockSt) :=
  let st := { st with mutexHeld := true }
  if !mkdirOk then some (some .mkdirFail, { st with mutexHeld := false })
  else lockLoop st rounds

/-- `Lockfile.Unlock` (lines 73-79): release the filesystem lock; the
deferred `unlock` releases the in-process mutex regardless of the outcome. -/
def unlockStep (st : LockSt) (fsUnlockOk : Bool) : Option LkErr × LockSt :=
  (if fsUnlockOk then none else some .unlockFail,
   { st with mutexHeld := false,
             fsHeld := if fsUnlockOk then false else st.fsHeld })

theorem lockLoop_mutex_released (st : LockSt) (rounds : List LockRound) :
    ∀ e st2, lockLoop st rounds = some (some e, st2) → st2.mutexHeld = false := by
  induction rounds with
  | nil =>
    intro e st2 h
    simp [lockLoop] at h
  | cons r rest ih =>
    intro e st2 h
    simp only [lockLoop] at h
    cases hr : r.tryRes
    · rw [hr] at h
      simp at h
    · rw [hr] at h
      cases ha : r.awaitRes
      · rw [ha] at h
        exact ih e st2 h
      · rw [ha] at h
        exact ih e st2 h
      · rw [ha] at h
        simp at h
        rw [← h.2]
    · rw [hr] at h
      simp at h
      rw [← h.2]

/-- **C10**: whenever `Lock` or `TryLock` returns an error, the in-process
per-file mutex acquired on entry has been released before the call returns,
so a failed locking attempt never leaves the file held in-process; and
`Unlock` releases the in-process mutex even when releasing the filesystem
lock fails. -/
theorem lockfile_mutex_released_on_error (st : LockSt)
    (mkdirOk fsTryOk fsUnlockOk : Bool) (rounds : List LockRound) :
    (∀ e st2, tryLockStep st mkdirOk fsTryOk = (some e, st2) →
        st2.mutexHeld = false)
    ∧ (∀ e st2, lockStep st mkdirOk rounds = some (some e, st2) →
        st2.mutexHeld = false)
    ∧ (unlockStep st fsUnlockOk).2.mutexHeld = false := by
  refine ⟨?_, ?_, ?_⟩
  · intro e st2 h
    cases mkdirOk <;> cases fsTryOk <;> simp [tryLockStep] at h <;>
      rw [← h.2]
  · intro e st2 h
    cases mkdirOk
    · simp [lockStep] at h
      rw [← h.2]
    · simp only [lockStep, Bool.not_true, Bool.false_eq_true, if_false] at h
      exact lockLoop_mutex_released _ rounds e st2 h
  · cases fsUnlockOk <;> simp [unlockStep]

/-- Witness for `lockfile_mutex_released_on_error`: a failed filesystem
TryLock and an Unlock whose filesystem release fails. -/
theorem lockfile_mutex_witness :
    (tryLockStep ⟨false, false⟩ true false).2.mutexHeld = false
    ∧ (unlockStep ⟨true, true⟩ false).2.mutexHeld = false := by
  have h := lockfile_mutex_released_on_error ⟨false, false⟩ true false false []
  exact ⟨h.1 .tryFail (tryLockStep ⟨false, false⟩ true false).2 rfl, h.2.2⟩
